import Mathlib

/-!
Shallow embedding of the time-entry core of `TimeInput.tsx`
(react-time-picker).  JavaScript strings are modelled as `List Char` and
JavaScript numbers that can be `NaN` as `Option Nat` (`none` = NaN; all
numbers arising in this component are small non-negative integers).
-/

namespace TimePicker

/-- Numeric value of an ASCII digit character. -/
def jsDigitVal (c : Char) : Nat := c.toNat - 48

/-- Value of a string of ASCII digits read in base 10. -/
def digitsVal (l : List Char) : Nat :=
  l.foldl (fun a c => a * 10 + jsDigitVal c) 0

/-- Strip leading and trailing spaces, as JavaScript `Number` trims
whitespace before parsing.  The space character is the only whitespace
character that can occur as a single-character `event.key`, so only it is
modelled. -/
def trimWs (s : List Char) : List Char :=
  ((s.dropWhile (fun c => c = ' ')).reverse.dropWhile (fun c => c = ' ')).reverse

/-- JavaScript `Number(string)` restricted to the inputs this component
produces: after trimming, the empty string parses to `0` and a string of
ASCII digits to its base-10 value; everything else is NaN (`none`). -/
def jsNum (s : List Char) : Option Nat :=
  let t := trimWs s
  if t.all Char.isDigit then some (digitsVal t) else none

/-- JavaScript `a > b` on possibly-NaN numbers: false whenever a side is NaN. -/
def jsGt (a b : Option Nat) : Bool :=
  match a, b with
  | some x, some y => decide (y < x)
  | _, _ => false

/-- JavaScript `a < b` on possibly-NaN numbers: false whenever a side is NaN. -/
def jsLt (a b : Option Nat) : Bool :=
  match a, b with
  | some x, some y => decide (x < y)
  | _, _ => false

/-- `HTMLInputElement.valueAsNumber` for a `type="number"` input: NaN on the
empty string, the numeric value on a digit string. -/
def valueAsNumber (v : List Char) : Option Nat :=
  if v = [] then none
  else if v.all Char.isDigit then some (digitsVal v) else none

/-- Modelled from the spec: `convert12to24` lives in `shared/dates.js`,
which is not part of the sources here.  `to24(hour12, meridiem) -> hour24`
is the inverse of `to12`; the meridiem is the string `"am"` or `"pm"`. -/
def convert12to24 (hour12 : Nat) (amPm : List Char) : Nat :=
  if amPm = "am".data then (if hour12 = 12 then 0 else hour12)
  else (if hour12 = 12 then 12 else hour12 + 12)

/-- Modelled from the spec: `convert24to12` lives in `shared/dates.js`,
which is not part of the sources here.  `to12(hour24) -> (hour12, meridiem)`
with hour 0 -> (12, am), 1-11 -> (h, am), 12 -> (12, pm), 13-23 -> (h-12, pm). -/
def convert24to12 (hour24 : Nat) : Nat × List Char :=
  if hour24 = 0 then (12, "am".data)
  else if hour24 < 12 then (hour24, "am".data)
  else if hour24 = 12 then (12, "pm".data)
  else (hour24 - 12, "pm".data)

/-- `acceptedFirstDigitsForHour = ['0', '1', '2']` from `TimeInput.tsx`,
as the one-character key strings it is compared against. -/
def acceptedFirstDigitsForHour : List (List Char) := [['0'], ['1'], ['2']]

/-- The effect of one `onKeyDown` event on the two-digit hour accumulator
(`TimeInput.tsx`, the `hour12`/`hour24` branch of `onKeyDown`): a numeric key
is appended when the accumulator is non-empty or the key is an accepted first
digit, unless the accumulator is already full or holds `"2"` and the key is
at least 4; Backspace drops the last character. -/
def hourKeyDownAcc (acc : List Char) (key : List Char) : List Char :=
  if (jsNum key).isSome then
    if acc.length ≠ 0 ∨ key ∈ acceptedFirstDigitsForHour then
      if acc.length < 2 then
        if acc ≠ ['2'] ∨ jsLt (jsNum key) (some 4) then acc ++ key else acc
      else acc
    else acc
  else if key = "Backspace".data then acc.dropLast
  else acc

/-- The accumulator contents reachable from the empty accumulator: at most
two characters, the first an accepted hour first digit, the second a digit
or a space, and below 4 whenever the first digit is 2. -/
def accOk : List Char → Prop
  | [] => True
  | [d] => d = '0' ∨ d = '1' ∨ d = '2'
  | [d, c] =>
      (d = '0' ∨ d = '1' ∨ d = '2') ∧ (c.isDigit = true ∨ c = ' ') ∧
        (d = '2' → (c = ' ' ∨ jsDigitVal c < 4))
  | _ => False

/-- JavaScript `a * 10` on a possibly-NaN number. -/
def jsMul10 (a : Option Nat) : Option Nat := a.map (· * 10)

/-- The focus-advance decision of `onKeyUp` in `TimeInput.tsx`: whether
`focus(findInput(input, 'nextElementSibling'))` is executed.  The guards
mirror the source: the released key must equal the last recorded key-down
key, parse as a number, and the input must carry a non-empty `max`
attribute; then hour fields consult the two-digit hour accumulator and
other numeric fields their own value. -/
def onKeyUpAdvances (lastPressedKey : Option (List Char)) (key : List Char)
    (maxAttr : Option (List Char)) (name value twoDigitHour : List Char) : Bool :=
  if lastPressedKey ≠ some key then false
  else if (jsNum key).isNone then false
  else
    match maxAttr with
    | none => false
    | some m =>
      if m = [] then false
      else
        if name = "hour12".data ∨ name = "hour24".data then
          decide (twoDigitHour = []) || decide (twoDigitHour.length = 2) ||
            jsGt (jsNum twoDigitHour) (jsNum m) || decide (m.length ≤ twoDigitHour.length)
        else
          jsGt (jsMul10 (jsNum value)) (jsNum m) || decide (m.length ≤ value.length)

/-- The claim's auto-advance condition for hour fields, stated from the
spec sentence: accumulator empty, or of length 2, or numerically above the
maximum, or at least as many characters as the maximum. -/
def specHourAdvance (acc m : List Char) : Prop :=
  acc = [] ∨ acc.length = 2 ∨
    (∃ a b, jsNum acc = some a ∧ jsNum m = some b ∧ b < a) ∨ m.length ≤ acc.length

/-- The claim's auto-advance condition for non-hour numeric fields, stated
from the spec sentence: the value times 10 exceeds the maximum, or the value
has at least as many characters as the maximum. -/
def specNonHourAdvance (value m : List Char) : Prop :=
  (∃ a b, jsNum value = some a ∧ jsNum m = some b ∧ b < a * 10) ∨ m.length ≤ value.length

/-- `Nat.toDigits 10`, the decimal rendering used for JavaScript number to
string coercion (`toString`, template literals) of the small naturals here. -/
def natToChars (n : Nat) : List Char := Nat.toDigits 10 n

/-- The React field state of `TimeInput` touched by the internal `onChange`
handler: `amPm`, `hour`, `minute`, `second` (strings or null). -/
structure FieldsState where
  amPm : Option (List Char)
  hour : Option (List Char)
  minute : Option (List Char)
  second : Option (List Char)
deriving DecidableEq, Repr

/-- JavaScript truthiness of a string-or-null/undefined value: truthy
exactly when it is a non-empty string. -/
def truthyOpt (o : Option (List Char)) : Bool :=
  match o with
  | some s => decide (s ≠ [])
  | none => false

/-- The state transition of the internal `onChange` handler in
`TimeInput.tsx` (the non-native inputs): dispatch on the changed element's
name; hour values above 23 are dropped by the early `break`.  The string
argument that the source passes to `convert12to24` is coerced through
`jsNum` (NaN cannot reach the call because the guard already rejected it
or the value is empty). -/
def onChangeState (name value twoDigitHour : List Char) (st : FieldsState) : FieldsState :=
  if name = "amPm".data then { st with amPm := some value }
  else if name = "hour12".data then
    if jsGt (jsNum value) (some 23) then st
    else
      let newHour : List Char :=
        if value ≠ [] then
          if twoDigitHour ∈ acceptedFirstDigitsForHour then value
          else
            natToChars (convert12to24 ((jsNum value).getD 0)
              (if truthyOpt st.amPm then st.amPm.getD []
               else if value = "12".data then "pm".data else "am".data))
        else []
      { st with hour := some newHour }
  else if name = "hour24".data then
    if jsGt (jsNum value) (some 23) then st else { st with hour := some value }
  else if name = "minute".data then { st with minute := some value }
  else if name = "second".data then { st with second := some value }
  else st

/-- A rendered form element as the reconciler reads it from the DOM: its
current string value and the result of its validity check. -/
structure FormElt where
  value : List Char
  valid : Bool
deriving DecidableEq, Repr

/-- `maxDetail` / `valueType`: the configured granularity. -/
inductive Detail
  | hour
  | minute
  | second
deriving DecidableEq, Repr

/-- Everything `onChangeExternal` reads: the five input refs (absent when the
field is not rendered), the two-digit hour accumulator, the externally
supplied `value` prop (`none` = null) and the granularity. -/
structure ReconcileState where
  amPmEl : Option FormElt
  hour12El : Option FormElt
  hour24El : Option FormElt
  minuteEl : Option FormElt
  secondEl : Option FormElt
  twoDigitHour : List Char
  valueProps : Option (List Char)
  maxDetail : Detail
deriving DecidableEq, Repr

/-- `.filter(filterBoolean)` for a nullable ref. -/
def optToList (o : Option FormElt) : List FormElt := o.elim [] (fun e => [e])

/-- The rendered non-select fields the reconciler considers: the hour12
input unless an hour override is supplied, then the hour24, minute and
second inputs, with null refs filtered out. -/
def nonSelectRendered (hourOverride : Option (List Char)) (st : ReconcileState) :
    List FormElt :=
  (if truthyOpt hourOverride then [] else optToList st.hour12El) ++
    (optToList st.hour24El ++ (optToList st.minuteEl ++ optToList st.secondEl))

/-- The `formElements` list built at the top of `onChangeExternal`: the amPm
select unless a meridiem override is supplied, followed by the rendered
non-select fields. -/
def formElements (amPmOverride hourOverride : Option (List Char))
    (st : ReconcileState) : List FormElt :=
  (if truthyOpt amPmOverride then [] else optToList st.amPmEl) ++
    nonSelectRendered hourOverride st

/-- `formElementsWithoutSelect = formElements.slice(amPmOverride ? 0 : 1)`. -/
def formElementsWithoutSelect (amPmOverride hourOverride : Option (List Char))
    (st : ReconcileState) : List FormElt :=
  if truthyOpt amPmOverride then formElements amPmOverride hourOverride st
  else (formElements amPmOverride hourOverride st).drop 1

/-- `values.amPm`: present only when the select is among the form elements
(a select contributes `.value`, not `.valueAsNumber`). -/
def valuesAmPm (amPmOverride : Option (List Char)) (st : ReconcileState) :
    Option (List Char) :=
  if truthyOpt amPmOverride then none else st.amPmEl.map (·.value)

/-- `values.hour12` as `valueAsNumber`; `none` covers both an absent element
and NaN, which JavaScript treats alike (both falsy) everywhere it is used. -/
def valuesHour12 (hourOverride : Option (List Char)) (st : ReconcileState) : Option Nat :=
  if truthyOpt hourOverride then none
  else st.hour12El.bind (fun e => valueAsNumber e.value)

/-- `values.hour24` as `valueAsNumber`. -/
def valuesHour24 (st : ReconcileState) : Option Nat :=
  st.hour24El.bind (fun e => valueAsNumber e.value)

/-- `values.minute` as `valueAsNumber`. -/
def valuesMinute (st : ReconcileState) : Option Nat :=
  st.minuteEl.bind (fun e => valueAsNumber e.value)

/-- `values.second` as `valueAsNumber`. -/
def valuesSecond (st : ReconcileState) : Option Nat :=
  st.secondEl.bind (fun e => valueAsNumber e.value)

/-- JavaScript truthiness of a number-or-undefined value: truthy exactly for
a non-zero (non-NaN) number. -/
def truthyNum (o : Option Nat) : Bool :=
  match o with
  | some n => decide (n ≠ 0)
  | none => false

/-- The `amPmValue` line of `onChangeExternal`:
`amPmOverride || (!values.amPm && Number(twoDigitHour.current) > 12 ? 'pm' : values.amPm)`. -/
def resolveAmPm (amPmOverride vAmPm : Option (List Char)) (twoDigitHour : List Char) :
    Option (List Char) :=
  if truthyOpt amPmOverride then amPmOverride
  else if ¬ truthyOpt vAmPm ∧ jsGt (jsNum twoDigitHour) (some 12) then some ("pm".data)
  else vAmPm

/-- `Number(values.hour24 || (values.hour12 && amPmValue && convert12to24(values.hour12, amPmValue)) || 0)`.
Every falsy short-circuit result (0, NaN, undefined, the empty string) is
caught by the final `|| 0`, and `convert12to24` can only return 0 when the
chain would fall through to the literal 0 anyway, so the value is a plain
natural number. -/
def hourNumber (h24 h12 : Option Nat) (amPmValue : Option (List Char)) : Nat :=
  if truthyNum h24 then h24.getD 0
  else if truthyNum h12 ∧ truthyOpt amPmValue then
    convert12to24 (h12.getD 0) (amPmValue.getD [])
  else 0

/-- `padStart = (num) => ('0' + num).slice(-2)`. -/
def padStart (s : List Char) : List Char :=
  let t := '0' :: s
  t.drop (t.length - 2)

/-- `getProcessedValue`: `getHoursMinutes` / `getHoursMinutesSeconds` from
the external date-utils collaborator, modelled on the canonical zero-padded
`HH:MM:SS` strings this component feeds them: they keep the `HH:MM`
respectively `HH:MM:SS` prefix. -/
def getProcessedValue (valueType : Detail) (s : List Char) : List Char :=
  match valueType with
  | .hour | .minute => s.take 5
  | .second => s.take 8

/-- What one run of the reconciler does towards the outside. -/
inductive Outcome
  | noop
  | notifyNull
  | notifyValue (v : List Char)
  | suppressed
  | invalidSignal
deriving DecidableEq, Repr

/-- Whether an outcome invokes the external `onChange` callback. -/
def Outcome.callsOnChange : Outcome → Bool
  | .notifyNull => true
  | .notifyValue _ => true
  | _ => false

/-- The zero-padded `HH:MM:SS` string composed in the all-valid branch of
`onChangeExternal`. -/
def proposedValue (amPmOverride hourOverride : Option (List Char))
    (st : ReconcileState) : List Char :=
  let amPmValue := resolveAmPm amPmOverride (valuesAmPm amPmOverride st) st.twoDigitHour
  let hourChars : List Char :=
    if truthyOpt hourOverride then hourOverride.getD []
    else natToChars (hourNumber (valuesHour24 st) (valuesHour12 hourOverride st) amPmValue)
  let minuteN := (valuesMinute st).getD 0
  let secondN := (valuesSecond st).getD 0
  padStart hourChars ++ ':' ::
    (padStart (natToChars minuteN) ++ ':' :: padStart (natToChars secondN))

/-- `onChangeExternal` of `TimeInput.tsx` as a pure classification of what
the call does: nothing without an `onChange` prop; `onChange(null, false)`
when every non-select form element is empty; `onChange(processed, false)` or
suppression in the all-filled-and-valid branch depending on whether the
processed value equals the current `value` prop; otherwise
`onInvalidChange()` when that callback exists. -/
def onChangeExternal (hasOnChange hasOnInvalidChange : Bool)
    (amPmOverride hourOverride : Option (List Char)) (st : ReconcileState) : Outcome :=
  if ¬ hasOnChange then .noop
  else
    let fes := formElements amPmOverride hourOverride st
    let fewos := formElementsWithoutSelect amPmOverride hourOverride st
    if fewos.all (fun e => decide (e.value = [])) then .notifyNull
    else
      if fes.all (fun e => decide (e.value ≠ [])) && fes.all (·.valid) then
        let processed := getProcessedValue st.maxDetail (proposedValue amPmOverride hourOverride st)
        if st.valueProps = some processed then .suppressed
        else .notifyValue processed
      else if hasOnInvalidChange then .invalidSignal
      else .noop

/-- The keys of `elementFunctions` in `renderCustomInputsInternal`, in
object order: h, H, m, s, a. -/
def elementKeys : List Char := ['h', 'H', 'm', 's', 'a']

/-- One alternation step of the regex `h+|H+|m+|s+|a+` over the placeholder:
either a divider character outside every match or a maximal run of one
token letter. -/
inductive Piece
  | div (c : Char)
  | tok (run : List Char)
deriving DecidableEq, Repr

/-- Cut a placeholder into divider characters and maximal runs of a single
token letter, as the global regex `h+|H+|m+|s+|a+` does. -/
def pieces (s : List Char) : List Piece :=
  s.foldr
    (fun c acc =>
      if c ∈ elementKeys then
        match acc with
        | Piece.tok (d :: ds) :: rest =>
            if d = c then Piece.tok (c :: d :: ds) :: rest else Piece.tok [c] :: acc
        | _ => Piece.tok [c] :: acc
      else Piece.div c :: acc)
    []

/-- Rebuild `placeholder.split(pattern)` and `placeholder.match(pattern)`
from the pieces: the list of divider segments (one more than the matches,
empty segments included) and the list of matched runs. -/
def segsMatches : List Piece → List (List Char) × List (List Char)
  | [] => ([[]], [])
  | p :: rest =>
    let (segs, ms) := segsMatches rest
    match p with
    | .div c =>
      match segs with
      | s :: ss => ((c :: s) :: ss, ms)
      | [] => ([[c]], ms)
    | .tok run => ([] :: segs, run :: ms)

/-- Which field an element renders. -/
inductive FieldKind
  | hour12
  | hour24
  | minute
  | second
  | amPm
deriving DecidableEq, Repr

/-- A rendered child of the wrapper: a divider, a raw token echoed for a
repeated field, or a field input with its `showLeadingZeros` flag. -/
inductive Node
  | divider (s : List Char)
  | raw (s : List Char)
  | field (k : FieldKind) (showLeadingZeros : Bool)
deriving DecidableEq, Repr

/-- `renderHour12`: tokens longer than two letters throw
`Unsupported token: ...`; a two-letter token turns on leading zeros. -/
def renderHour12 (currentMatch : List Char) : Except (List Char) Node :=
  if currentMatch ≠ [] ∧ 2 < currentMatch.length then
    Except.error ("Unsupported token: ".data ++ currentMatch)
  else
    Except.ok (.field .hour12 (if currentMatch ≠ [] then decide (currentMatch.length = 2) else false))

/-- `renderHour24`, with the same token-length check. -/
def renderHour24 (currentMatch : List Char) : Except (List Char) Node :=
  if currentMatch ≠ [] ∧ 2 < currentMatch.length then
    Except.error ("Unsupported token: ".data ++ currentMatch)
  else
    Except.ok (.field .hour24 (if currentMatch ≠ [] then decide (currentMatch.length = 2) else false))

/-- `renderHour`: `/h/.test(currentMatch)` selects the 12-hour input. -/
def renderHour (currentMatch : List Char) : Except (List Char) Node :=
  if 'h' ∈ currentMatch then renderHour12 currentMatch else renderHour24 currentMatch

/-- `renderMinute`, with the same token-length check. -/
def renderMinute (currentMatch : List Char) : Except (List Char) Node :=
  if currentMatch ≠ [] ∧ 2 < currentMatch.length then
    Except.error ("Unsupported token: ".data ++ currentMatch)
  else
    Except.ok (.field .minute (if currentMatch ≠ [] then decide (currentMatch.length = 2) else false))

/-- `renderSecond`, with the same token-length check but leading zeros on by
default. -/
def renderSecond (currentMatch : List Char) : Except (List Char) Node :=
  if currentMatch ≠ [] ∧ 2 < currentMatch.length then
    Except.error ("Unsupported token: ".data ++ currentMatch)
  else
    Except.ok (.field .second (if currentMatch ≠ [] then decide (currentMatch.length = 2) else true))

/-- `renderAmPm` never throws. -/
def renderAmPm (_currentMatch : List Char) : Except (List Char) Node :=
  Except.ok (.field .amPm false)

/-- The render functions of `elementFunctions` by identity, for the
`usedFunctions` duplicate check (h and H share `renderHour`). -/
inductive RendererId
  | hour
  | minute
  | second
  | ampm
deriving DecidableEq, Repr

/-- Which renderer a token letter maps to. -/
def keyToRenderer (c : Char) : RendererId :=
  if c = 'h' ∨ c = 'H' then .hour
  else if c = 'm' then .minute
  else if c = 's' then .second
  else .ampm

/-- The renderer lookup of `renderCustomInputs`: the exact-key lookup
`elementFunctions[currentMatch]`, falling back to the first key the match
contains. -/
def rendererFor (currentMatch : List Char) : Option RendererId :=
  match currentMatch with
  | [c] =>
    if c ∈ elementKeys then some (keyToRenderer c)
    else (elementKeys.find? (fun k => k ∈ currentMatch)).map keyToRenderer
  | _ => (elementKeys.find? (fun k => k ∈ currentMatch)).map keyToRenderer

/-- Run one renderer on a token. -/
def applyRenderer : RendererId → List Char → Except (List Char) Node
  | .hour, m => renderHour m
  | .minute, m => renderMinute m
  | .second, m => renderSecond m
  | .ampm, m => renderAmPm m

/-- The `reduce` of `renderCustomInputs`: walk the split segments paired
with the matches, pushing dividers (an empty segment pushes a falsy value
that renders nothing), skipping matches without a renderer, echoing the raw
token for a repeated renderer when multiple instances are not allowed, and
otherwise running the renderer — whose thrown error aborts the whole walk. -/
def renderPieces (allowMultipleInstances : Bool) :
    List (List Char) → List (List Char) → List RendererId → Except (List Char) (List Node)
  | [], _, _ => Except.ok []
  | seg :: segs, ms, used =>
    let dividerNodes : List Node := if seg = [] then [] else [.divider seg]
    match ms with
    | [] =>
      match renderPieces allowMultipleInstances segs [] used with
      | .error e => .error e
      | .ok tail => .ok (dividerNodes ++ tail)
    | m :: rest =>
      match rendererFor m with
      | none =>
        match renderPieces allowMultipleInstances segs rest used with
        | .error e => .error e
        | .ok tail => .ok (dividerNodes ++ tail)
      | some r =>
        if ¬ allowMultipleInstances ∧ r ∈ used then
          match renderPieces allowMultipleInstances segs rest used with
          | .error e => .error e
          | .ok tail => .ok (dividerNodes ++ .raw m :: tail)
        else
          match applyRenderer r m with
          | .error e => .error e
          | .ok node =>
            match renderPieces allowMultipleInstances segs rest (used ++ [r]) with
            | .error e => .error e
            | .ok tail => .ok (dividerNodes ++ node :: tail)

/-- Render a whole placeholder: tokenize it and fold the renderers over it.
`allowMultipleInstances` is true exactly when an explicit `format` prop was
supplied. -/
def renderPlaceholder (fmt : List Char) (allowMultipleInstances : Bool) :
    Except (List Char) (List Node) :=
  let (segs, ms) := segsMatches (pieces fmt)
  renderPieces allowMultipleInstances segs ms []

/-! ### Helper lemmas -/

theorem digit_ne_space {c : Char} (h : c.isDigit = true) : c ≠ ' ' := by
  intro he
  subst he
  simp [Char.isDigit] at h

theorem jsNum_single_digit {c : Char} (h : c.isDigit = true) :
    jsNum [c] = some (jsDigitVal c) := by
  have hne : ¬(c = ' ') := digit_ne_space h
  simp [jsNum, trimWs, List.dropWhile, hne, h, digitsVal]

theorem jsNum_singleton_cases {c : Char} {v : Nat} (h : jsNum [c] = some v) :
    (c.isDigit = true ∧ v = jsDigitVal c) ∨ (c = ' ' ∧ v = 0) := by
  by_cases hc : c = ' '
  · subst hc
    right
    refine ⟨rfl, ?_⟩
    simp [jsNum, trimWs, List.dropWhile, digitsVal] at h
    omega
  · by_cases hd : c.isDigit = true
    · left
      rw [jsNum_single_digit hd] at h
      exact ⟨hd, (Option.some.injEq _ _ ▸ h).symm⟩
    · exfalso
      simp [jsNum, trimWs, List.dropWhile, hc, hd] at h

theorem jsNum_pair_digit {d c : Char} (hd : d.isDigit = true) (hc : c.isDigit = true) :
    jsNum [d, c] = some (jsDigitVal d * 10 + jsDigitVal c) := by
  have hnd : ¬(d = ' ') := digit_ne_space hd
  have hnc : ¬(c = ' ') := digit_ne_space hc
  simp [jsNum, trimWs, List.dropWhile, hnd, hnc, hd, hc, digitsVal]

theorem jsNum_pair_space {d : Char} (hd : d.isDigit = true) :
    jsNum [d, ' '] = some (jsDigitVal d) := by
  have hnd : ¬(d = ' ') := digit_ne_space hd
  simp [jsNum, trimWs, List.dropWhile, hnd, hd, digitsVal]

theorem jsDigitVal_le_nine {c : Char} (h : c.isDigit = true) : jsDigitVal c ≤ 9 := by
  simp only [Char.isDigit, Bool.and_eq_true, decide_eq_true_eq] at h
  obtain ⟨h1, h2⟩ := h
  simp only [UInt32.le_def, Fin.le_def, BitVec.le_def] at h2
  have h57 : (UInt32.toBitVec 57).toNat = 57 := rfl
  rw [h57] at h2
  simp only [jsDigitVal, Char.toNat, UInt32.toNat]
  omega

theorem jsGt_eq_true_iff {a b : Option Nat} :
    jsGt a b = true ↔ ∃ x y, a = some x ∧ b = some y ∧ y < x := by
  cases a <;> cases b <;> simp [jsGt]

/-! ### C5: 12-hour / 24-hour round trip -/

/-- C5: for every hour24 in 0..23, converting with `convert24to12` and then
back with `convert12to24` returns the original hour unchanged. -/
theorem convert_roundTrip (h : Nat) (hh : h < 24) :
    convert12to24 (convert24to12 h).1 (convert24to12 h).2 = h := by
  interval_cases h <;> rfl

/-- Witness for C5 at hour 13. -/
theorem convert_roundTrip_witness :
    13 < 24 ∧ convert12to24 (convert24to12 13).1 (convert24to12 13).2 = 13 :=
  ⟨by decide, convert_roundTrip 13 (by decide)⟩

/-! ### C7: tripled field tokens abort rendering -/

/-- C7: rendering a format whose numeric field letter is repeated three
times consecutively (tokens hhh, HHH, mmm, sss) yields the thrown
`Unsupported token` error, which propagates out of the render of that
field instead of being swallowed (shown both for the bare tokens and for a
token embedded in a larger format). -/
theorem renderPlaceholder_tripled_token_errors :
    renderPlaceholder ("hhh".data) true = .error ("Unsupported token: hhh".data) ∧
    renderPlaceholder ("HHH".data) true = .error ("Unsupported token: HHH".data) ∧
    renderPlaceholder ("mmm".data) true = .error ("Unsupported token: mmm".data) ∧
    renderPlaceholder ("sss".data) true = .error ("Unsupported token: sss".data) ∧
    renderPlaceholder ("hhh:mm".data) true = .error ("Unsupported token: hhh".data) :=
  ⟨rfl, rfl, rfl, rfl, rfl⟩

/-! ### C9: a format with no numeric fields always reconciles to null -/

/-- C9: the format string "a" renders exactly one meridiem selector and no
numeric inputs, and with only the selector rendered every reconciliation
reports `onChange(null, false)` whatever the selected meridiem, the
accumulator, the external value or the granularity: the all-empty check
ranges over the non-select fields only and is vacuously true. -/
theorem meridiem_only_format_always_null (sel : FormElt) (tdh : List Char)
    (vp : Option (List Char)) (d : Detail) (hasInvalid : Bool) :
    renderPlaceholder ("a".data) true = .ok [.field .amPm false] ∧
    onChangeExternal true hasInvalid none none
        { amPmEl := some sel, hour12El := none, hour24El := none, minuteEl := none,
          secondEl := none, twoDigitHour := tdh, valueProps := vp, maxDetail := d } =
      .notifyNull :=
  ⟨rfl, rfl⟩

/-! ### C2: the two-digit hour accumulator invariant -/

theorem accOk_dropLast : ∀ {acc : List Char}, accOk acc → accOk acc.dropLast
  | [], _ => trivial
  | [_], _ => trivial
  | [_, _], h => h.1
  | _ :: _ :: _ :: _, h => h.elim

theorem accOk_step {acc key : List Char} (h : accOk acc)
    (hk : key.length = 1 ∨ jsNum key = none) : accOk (hourKeyDownAcc acc key) := by
  by_cases hn : (jsNum key).isSome = true
  case neg =>
    simp only [hourKeyDownAcc, if_neg hn]
    by_cases hb : key = "Backspace".data
    · rw [if_pos hb]
      exact accOk_dropLast h
    · rw [if_neg hb]
      exact h
  case pos =>
    obtain ⟨v, hv⟩ := Option.isSome_iff_exists.mp hn
    have hk1 : key.length = 1 := by
      rcases hk with h1 | h1
      · exact h1
      · rw [h1] at hv
        cases hv
    obtain ⟨c, rfl⟩ : ∃ c, key = [c] := by
      match key, hk1 with
      | [c], _ => exact ⟨c, rfl⟩
    have hcs := jsNum_singleton_cases hv
    simp only [hourKeyDownAcc, if_pos hn]
    match acc, h with
    | [], _ =>
      by_cases hmem : ([c] : List Char) ∈ acceptedFirstDigitsForHour
      · rw [if_pos (Or.inr hmem), if_pos (by simp), if_pos (by simp)]
        simp only [List.nil_append]
        simp only [acceptedFirstDigitsForHour, List.mem_cons, List.mem_singleton] at hmem
        rcases hmem with h1 | h1 | h1 <;> simp_all [accOk]
      · rw [if_neg (by simp [hmem])]
        trivial
    | [d], hd =>
      rw [if_pos (Or.inl (by simp)), if_pos (by simp)]
      by_cases happ : ([d] : List Char) ≠ ['2'] ∨ jsLt (jsNum [c]) (some 4) = true
      · rw [if_pos happ]
        refine ⟨hd, ?_, ?_⟩
        · rcases hcs with ⟨h1, _⟩ | ⟨h1, _⟩
          · exact Or.inl h1
          · exact Or.inr h1
        · intro hd2
          subst hd2
          rcases happ with h1 | h1
          · exact absurd rfl h1
          · rcases hcs with ⟨hdig, hval⟩ | ⟨hsp, _⟩
            · right
              rw [hv] at h1
              simp [jsLt] at h1
              omega
            · exact Or.inl hsp
      · rw [if_neg happ]
        exact hd
    | [d, c0], h2 =>
      rw [if_pos (Or.inl (by simp)), if_neg (by simp)]
      exact h2
    | _ :: _ :: _ :: _, h3 => exact h3.elim

theorem accOk_foldl {keys : List (List Char)} {acc : List Char} (h : accOk acc)
    (hk : ∀ k ∈ keys, k.length = 1 ∨ jsNum k = none) :
    accOk (keys.foldl hourKeyDownAcc acc) := by
  induction keys generalizing acc with
  | nil => exact h
  | cons k ks ih =>
    exact ih (accOk_step h (hk k (by simp))) (fun k2 hk2 => hk k2 (by simp [hk2]))

theorem accOk_bound : ∀ {acc : List Char}, accOk acc →
    acc.length ≤ 2 ∧ ∀ v, jsNum acc = some v → v < 24
  | [], _ => by
    refine ⟨by simp, fun v hv => ?_⟩
    simp [jsNum, trimWs, digitsVal] at hv
    omega
  | [d], hd => by
    refine ⟨by simp, fun v hv => ?_⟩
    have hdig : d.isDigit = true := by
      rcases hd with h1 | h1 | h1 <;> subst h1 <;> decide
    rw [jsNum_single_digit hdig] at hv
    have hle : jsDigitVal d ≤ 2 := by
      rcases hd with h1 | h1 | h1 <;> subst h1 <;> decide
    have hv2 := Option.some.inj hv
    omega
  | [d, c], h => by
    obtain ⟨h1, h2, h3⟩ := h
    refine ⟨by simp, fun v hv => ?_⟩
    have hdig : d.isDigit = true := by
      rcases h1 with hh | hh | hh <;> subst hh <;> decide
    have hdle : jsDigitVal d ≤ 2 := by
      rcases h1 with hh | hh | hh <;> subst hh <;> decide
    rcases h2 with hc | hc
    · rw [jsNum_pair_digit hdig hc] at hv
      have hv2 := Option.some.inj hv
      have hc9 : jsDigitVal c ≤ 9 := jsDigitVal_le_nine hc
      by_cases hd2 : d = '2'
      · rcases h3 hd2 with hsp | hlt
        · exact absurd hsp (digit_ne_space hc)
        · omega
      · have hd1 : jsDigitVal d ≤ 1 := by
          rcases h1 with hh | hh | hh
          · subst hh; decide
          · subst hh; decide
          · exact absurd hh hd2
        omega
    · subst hc
      rw [jsNum_pair_space hdig] at hv
      have hv2 := Option.some.inj hv
      omega
  | _ :: _ :: _ :: _, h => h.elim

/-- C2: starting from the empty accumulator, any sequence of key-down events
on an hour field (keys are single characters or non-numeric named keys)
leaves the two-digit hour accumulator with at most 2 characters and a
numeric value below 24; in particular typing "2" then "4" leaves it at "2". -/
theorem twoDigitHour_accumulator_invariant :
    (∀ keys : List (List Char), (∀ k ∈ keys, k.length = 1 ∨ jsNum k = none) →
      (keys.foldl hourKeyDownAcc []).length ≤ 2 ∧
        ∀ v, jsNum (keys.foldl hourKeyDownAcc []) = some v → v < 24) ∧
    hourKeyDownAcc (hourKeyDownAcc [] ['2']) ['4'] = ['2'] := by
  constructor
  · intro keys hk
    exact accOk_bound (accOk_foldl trivial hk)
  · rfl

/-- Witness for C2 on the key sequence "2", "4". -/
theorem twoDigitHour_accumulator_invariant_witness :
    (([['2'], ['4']] : List (List Char)).foldl hourKeyDownAcc []).length ≤ 2 ∧
      ∀ v, jsNum (([['2'], ['4']] : List (List Char)).foldl hourKeyDownAcc []) = some v →
        v < 24 :=
  twoDigitHour_accumulator_invariant.1 [['2'], ['4']] (by decide)

/-! ### C1: the key-up auto-advance condition -/

/-- C1: on key-up with a digit key that matches the last recorded key-down
on a field with a non-empty max attribute, hour fields advance focus exactly
under the accumulator condition of the spec and other numeric fields exactly
under the times-10/length condition; a key-up whose key is not the last
pressed key never advances. -/
theorem onKeyUp_advance_condition (key m name value tdh : List Char)
    (hkey : ∃ d, key = [d] ∧ d.isDigit = true) (hm : m ≠ []) :
    ((name = "hour12".data ∨ name = "hour24".data) →
      (onKeyUpAdvances (some key) key (some m) name value tdh = true ↔
        specHourAdvance tdh m)) ∧
    ((name ≠ "hour12".data ∧ name ≠ "hour24".data) →
      (onKeyUpAdvances (some key) key (some m) name value tdh = true ↔
        specNonHourAdvance value m)) ∧
    (∀ lp, lp ≠ some key → onKeyUpAdvances lp key (some m) name value tdh = false) := by
  obtain ⟨d, rfl, hd⟩ := hkey
  have hnum : (jsNum [d]).isNone = false := by
    rw [jsNum_single_digit hd]
    rfl
  refine ⟨fun hname => ?_, fun hname => ?_, fun lp hlp => ?_⟩
  · simp only [onKeyUpAdvances, if_neg (by simp : ¬(some [d] ≠ some [d])), hnum,
      Bool.false_eq_true, if_false, if_neg hm, if_pos hname]
    simp only [Bool.or_eq_true, decide_eq_true_eq, jsGt_eq_true_iff, specHourAdvance]
    constructor
    · rintro (((h1 | h2) | h3) | h4)
      · exact Or.inl h1
      · exact Or.inr (Or.inl h2)
      · exact Or.inr (Or.inr (Or.inl h3))
      · exact Or.inr (Or.inr (Or.inr h4))
    · rintro (h1 | h2 | h3 | h4)
      · exact Or.inl (Or.inl (Or.inl h1))
      · exact Or.inl (Or.inl (Or.inr h2))
      · exact Or.inl (Or.inr h3)
      · exact Or.inr h4
  · simp only [onKeyUpAdvances, if_neg (by simp : ¬(some [d] ≠ some [d])), hnum,
      Bool.false_eq_true, if_false, if_neg hm,
      if_neg (by tauto : ¬(name = "hour12".data ∨ name = "hour24".data))]
    simp only [Bool.or_eq_true, decide_eq_true_eq, jsGt_eq_true_iff, specNonHourAdvance,
      jsMul10]
    constructor
    · rintro (⟨x, y, hx, hy, hxy⟩ | hlen)
      · left
        cases hv : jsNum value with
        | none => rw [hv] at hx; cases hx
        | some a =>
          rw [hv] at hx
          have hx2 : a * 10 = x := by simpa using hx
          exact ⟨a, y, rfl, hy, by omega⟩
      · exact Or.inr hlen
    · rintro (⟨a, b, ha, hb, hab⟩ | hlen)
      · left
        exact ⟨a * 10, b, by rw [ha]; rfl, hb, hab⟩
      · exact Or.inr hlen
  · simp only [onKeyUpAdvances, if_pos hlp]

/-- Witness for C1: typing "7" into the minute field (max 59) advances. -/
theorem onKeyUp_advance_condition_witness :
    onKeyUpAdvances (some ['7']) ['7'] (some ['5', '9']) ("minute".data) ['7'] [] = true :=
  ((onKeyUp_advance_condition ['7'] ['5', '9'] ("minute".data) ['7'] []
        ⟨'7', rfl, by decide⟩ (by decide)).2.1 (by decide)).mpr
    (Or.inl ⟨7, 59, by decide, by decide, by decide⟩)

/-! ### C8: hour change events above 23 are silently dropped -/

/-- C8: a change event on an hour field whose value parses to a number
above 23 leaves the whole field state unchanged (and, being a total
function, surfaces no error). -/
theorem hour_change_above_23_rejected (name value tdh : List Char) (st : FieldsState)
    (n : Nat) (hname : name = "hour12".data ∨ name = "hour24".data)
    (hnum : jsNum value = some n) (hgt : 23 < n) :
    onChangeState name value tdh st = st := by
  have hjsgt : jsGt (jsNum value) (some 23) = true := by
    rw [hnum]
    simp only [jsGt, decide_eq_true_eq]
    omega
  rcases hname with h | h <;> subst h
  · unfold onChangeState
    rw [if_neg (by decide), if_pos rfl, if_pos hjsgt]
  · unfold onChangeState
    rw [if_neg (by decide), if_neg (by decide), if_pos rfl, if_pos hjsgt]

/-- Witness for C8: the value "24" typed into the hour12 field. -/
theorem hour_change_above_23_rejected_witness :
    onChangeState ("hour12".data) ("24".data) []
        ⟨none, some ['5'], none, none⟩ = ⟨none, some ['5'], none, none⟩ :=
  hour_change_above_23_rejected _ _ [] _ 24 (Or.inl rfl) (by decide) (by decide)

/-! ### C6: meridiem resolution during reconciliation -/

/-- C6: with no meridiem override, the resolved meridiem is the selector
value whenever the selector value is truthy; when the selector value is
falsy it resolves to "pm" exactly when the accumulator parses above 12 and
otherwise stays falsy (unresolved). -/
theorem meridiem_resolution (sel : Option (List Char)) (tdh : List Char) :
    (truthyOpt sel = true → resolveAmPm none sel tdh = sel) ∧
    (truthyOpt sel = false →
      ((∃ v, jsNum tdh = some v ∧ 12 < v) →
        resolveAmPm none sel tdh = some ("pm".data)) ∧
      ((∀ v, jsNum tdh = some v → v ≤ 12) →
        resolveAmPm none sel tdh = sel ∧ truthyOpt (resolveAmPm none sel tdh) = false)) := by
  refine ⟨fun hsel => ?_, fun hsel => ⟨fun hgt => ?_, fun hle => ?_⟩⟩
  · unfold resolveAmPm
    rw [if_neg (by decide), if_neg (by simp [hsel])]
  · obtain ⟨v, hv, h12⟩ := hgt
    unfold resolveAmPm
    rw [if_neg (by decide), if_pos ⟨by simp [hsel], jsGt_eq_true_iff.mpr ⟨v, 12, hv, rfl, h12⟩⟩]
  · have hng : jsGt (jsNum tdh) (some 12) = false := by
      cases hv : jsNum tdh with
      | none => rfl
      | some a =>
        simp only [jsGt, decide_eq_false_iff_not, not_lt]
        exact hle a hv
    have heq : resolveAmPm none sel tdh = sel := by
      unfold resolveAmPm
      rw [if_neg (by decide), if_neg (by simp [hng])]
    refine ⟨heq, ?_⟩
    rw [heq]
    exact hsel

/-- Witness for C6: an empty selector with accumulator "13" resolves to pm. -/
theorem meridiem_resolution_witness :
    resolveAmPm none none ['1', '3'] = some ("pm".data) :=
  ((meridiem_resolution none ['1', '3']).2 (by decide)).1 ⟨13, by decide, by decide⟩

/-! ### C3, C4, C10: reconciliation outcomes -/

theorem mem_formElements_of_mem_without_select {ov hov : Option (List Char)}
    {st : ReconcileState} {e : FormElt} (he : e ∈ formElementsWithoutSelect ov hov st) :
    e ∈ formElements ov hov st := by
  unfold formElementsWithoutSelect at he
  by_cases hov' : truthyOpt ov = true
  · rw [if_pos hov'] at he
    exact he
  · rw [if_neg hov'] at he
    exact List.mem_of_mem_drop he

theorem mem_nonSelect_of_mem_without_select {ov hov : Option (List Char)}
    {st : ReconcileState} {e : FormElt} (he : e ∈ formElementsWithoutSelect ov hov st) :
    e ∈ nonSelectRendered hov st := by
  unfold formElementsWithoutSelect formElements at he
  by_cases hov' : truthyOpt ov = true
  · rw [if_pos hov', if_pos hov'] at he
    simpa using he
  · rw [if_neg hov', if_neg hov'] at he
    cases ha : st.amPmEl with
    | none =>
      rw [ha] at he
      simpa [optToList] using List.mem_of_mem_drop he
    | some a =>
      rw [ha] at he
      simpa [optToList] using he

/-- Shared helper: when every rendered non-select field is empty, the
reconciler reports `onChange(null, false)`, whatever the external value. -/
theorem notifyNull_of_empty (hasInvalid : Bool) (ov hov : Option (List Char))
    (st : ReconcileState) (hemp : ∀ e ∈ nonSelectRendered hov st, e.value = []) :
    onChangeExternal true hasInvalid ov hov st = .notifyNull := by
  have hall : (formElementsWithoutSelect ov hov st).all
      (fun e => decide (e.value = [])) = true := by
    rw [List.all_eq_true]
    intro e he
    exact decide_eq_true (hemp e (mem_nonSelect_of_mem_without_select he))
  simp only [onChangeExternal]
  rw [if_neg (by simp), if_pos hall]

/-- One step of the clearing scenario: the populated `22:17:03`
(granularity second, 12-hour format with an amPm select showing "pm") with
the current hour12, minute and second input values. -/
def clearingStep (h12 m s : List Char) : ReconcileState :=
  { amPmEl := some ⟨"pm".data, true⟩, hour12El := some ⟨h12, true⟩, hour24El := none,
    minuteEl := some ⟨m, true⟩, secondEl := some ⟨s, true⟩, twoDigitHour := [],
    valueProps := some ("22:17:03".data), maxDetail := .second }

/-- The three reconciliations seen while clearing hour, then minute, then
second from the populated state. -/
def clearingSequence : List ReconcileState :=
  [clearingStep [] ("17".data) ['3'], clearingStep [] [] ['3'], clearingStep [] [] []]

/-- C3: a reconciliation with every rendered non-meridiem field empty
reports `onChange(null, false)`; clearing hour, minute and second one by one
from the populated `22:17:03` state produces two invalid-input signals and
then the single null commit — exactly one `onChange` call. -/
theorem empty_reconciliation_commits_null :
    (∀ (hasInvalid : Bool) (ov hov : Option (List Char)) (st : ReconcileState),
        (∀ e ∈ nonSelectRendered hov st, e.value = []) →
        onChangeExternal true hasInvalid ov hov st = .notifyNull) ∧
    clearingSequence.map (onChangeExternal true true none none) =
        [.invalidSignal, .invalidSignal, .notifyNull] ∧
    (clearingSequence.map (onChangeExternal true true none none)).countP
        (·.callsOnChange) = 1 := by
  refine ⟨notifyNull_of_empty, by decide, by decide⟩

/-- Witness for C3 at the final, all-cleared state. -/
theorem empty_reconciliation_commits_null_witness :
    onChangeExternal true true none none (clearingStep [] [] []) = .notifyNull :=
  empty_reconciliation_commits_null.1 true none none (clearingStep [] [] []) (by decide)

/-- C10: the all-empty branch is not de-duplicated against the current
external value: even when the external value is already null or the empty
string, an all-empty reconciliation still reports `onChange(null, false)`
rather than suppressing it. -/
theorem null_commit_not_deduplicated (hasInvalid : Bool) (ov hov : Option (List Char))
    (st : ReconcileState) (hemp : ∀ e ∈ nonSelectRendered hov st, e.value = []) :
    onChangeExternal true hasInvalid ov hov { st with valueProps := none } = .notifyNull ∧
    onChangeExternal true hasInvalid ov hov { st with valueProps := some [] } = .notifyNull :=
  ⟨notifyNull_of_empty hasInvalid ov hov _ (fun e he => hemp e he),
    notifyNull_of_empty hasInvalid ov hov _ (fun e he => hemp e he)⟩

/-- Witness for C10 at the all-cleared state with a null external value. -/
theorem null_commit_not_deduplicated_witness :
    onChangeExternal true true none none
        { clearingStep [] [] [] with valueProps := none } = .notifyNull :=
  (null_commit_not_deduplicated true none none (clearingStep [] [] []) (by decide)).1

theorem formElements_setValueProps (ov hov vp : Option (List Char)) (st : ReconcileState) :
    formElements ov hov { st with valueProps := vp } = formElements ov hov st := rfl

theorem formElementsWithoutSelect_setValueProps (ov hov vp : Option (List Char))
    (st : ReconcileState) :
    formElementsWithoutSelect ov hov { st with valueProps := vp } =
      formElementsWithoutSelect ov hov st := rfl

theorem proposedValue_setValueProps (ov hov vp : Option (List Char)) (st : ReconcileState) :
    proposedValue ov hov { st with valueProps := vp } = proposedValue ov hov st := rfl

theorem maxDetail_setValueProps (vp : Option (List Char)) (st : ReconcileState) :
    ({ st with valueProps := vp } : ReconcileState).maxDetail = st.maxDetail := rfl

/-- C4: with all form elements filled and valid, a composed value equal to
the current external value suppresses the notification; consequently a
reconciliation that notified a value, repeated after that value has become
the external value, is suppressed — the same canonical value notifies at
most once. -/
theorem unchanged_value_suppressed :
    (∀ (hasInvalid : Bool) (ov hov : Option (List Char)) (st : ReconcileState),
        formElementsWithoutSelect ov hov st ≠ [] →
        (formElements ov hov st).all (fun e => decide (e.value ≠ [])) = true →
        (formElements ov hov st).all (·.valid) = true →
        st.valueProps = some (getProcessedValue st.maxDetail (proposedValue ov hov st)) →
        onChangeExternal true hasInvalid ov hov st = .suppressed) ∧
    (∀ (hasInvalid : Bool) (ov hov : Option (List Char)) (st : ReconcileState)
        (v : List Char),
        onChangeExternal true hasInvalid ov hov st = .notifyValue v →
        onChangeExternal true hasInvalid ov hov { st with valueProps := some v } =
          .suppressed) := by
  have main : ∀ (hasInvalid : Bool) (ov hov : Option (List Char)) (st : ReconcileState),
      formElementsWithoutSelect ov hov st ≠ [] →
      (formElements ov hov st).all (fun e => decide (e.value ≠ [])) = true →
      (formElements ov hov st).all (·.valid) = true →
      st.valueProps = some (getProcessedValue st.maxDetail (proposedValue ov hov st)) →
      onChangeExternal true hasInvalid ov hov st = .suppressed := by
    intro hasInvalid ov hov st hne hfilled hvalid hvp
    have hnotempty : ¬((formElementsWithoutSelect ov hov st).all
        (fun e => decide (e.value = [])) = true) := by
      obtain ⟨e0, he0⟩ := List.exists_mem_of_ne_nil _ hne
      rw [List.all_eq_true]
      intro hxx
      have h1 := of_decide_eq_true (hxx e0 he0)
      have h2 := of_decide_eq_true
        (List.all_eq_true.mp hfilled e0 (mem_formElements_of_mem_without_select he0))
      exact h2 h1
    have hfv : ((formElements ov hov st).all (fun e => decide (e.value ≠ [])) &&
        (formElements ov hov st).all (·.valid)) = true := by
      rw [Bool.and_eq_true]
      exact ⟨hfilled, hvalid⟩
    simp only [onChangeExternal]
    rw [if_neg (by simp), if_neg hnotempty, if_pos hfv, if_pos hvp]
  refine ⟨main, ?_⟩
  intro hasInvalid ov hov st v h
  simp only [onChangeExternal] at h
  rw [if_neg (by simp)] at h
  by_cases hemp : (formElementsWithoutSelect ov hov st).all
      (fun e => decide (e.value = [])) = true
  · rw [if_pos hemp] at h
    cases h
  · rw [if_neg hemp] at h
    by_cases hfv : ((formElements ov hov st).all (fun e => decide (e.value ≠ [])) &&
        (formElements ov hov st).all (·.valid)) = true
    · rw [if_pos hfv] at h
      by_cases hsup : st.valueProps =
          some (getProcessedValue st.maxDetail (proposedValue ov hov st))
      · rw [if_pos hsup] at h
        cases h
      · rw [if_neg hsup] at h
        have hv : v = getProcessedValue st.maxDetail (proposedValue ov hov st) :=
          (Outcome.notifyValue.injEq _ _ ▸ h).symm
        rw [Bool.and_eq_true] at hfv
        obtain ⟨hf, hva⟩ := hfv
        have hne : formElementsWithoutSelect ov hov st ≠ [] := by
          intro hnil
          rw [hnil] at hemp
          exact hemp rfl
        refine main hasInvalid ov hov { st with valueProps := some v } ?_ ?_ ?_ ?_
        · rw [formElementsWithoutSelect_setValueProps]
          exact hne
        · rw [formElements_setValueProps]
          exact hf
        · rw [formElements_setValueProps]
          exact hva
        · rw [maxDetail_setValueProps, proposedValue_setValueProps]
          exact congrArg some hv
    · rw [if_neg hfv] at h
      by_cases hinv : hasInvalid = true
      · rw [if_pos hinv] at h
        cases h
      · rw [if_neg hinv] at h
        cases h

/-- The concrete state for the C4 witness: hour12 "8", minute "30",
meridiem "am", granularity minute, external value already "08:30". -/
def idempotentState : ReconcileState :=
  { amPmEl := some ⟨"am".data, true⟩, hour12El := some ⟨['8'], true⟩, hour24El := none,
    minuteEl := some ⟨"30".data, true⟩, secondEl := none, twoDigitHour := [],
    valueProps := some ("08:30".data), maxDetail := .minute }

/-- Witness for C4: recommitting "08:30" is suppressed. -/
theorem unchanged_value_suppressed_witness :
    onChangeExternal true true none none idempotentState = .suppressed :=
  unchanged_value_suppressed.1 true none none idempotentState (by decide) (by decide)
    (by decide) (by decide)

end TimePicker
